import Mathlib

/-!
Verification of the logging subsystem of the `oauth-node` repository
(`src/logging/logging.service.ts`).  JavaScript values flowing through the
logger are modelled by the JSON-like type `JValue`; the stateful service
methods are modelled as pure functions over explicit configuration and
environment records.
-/

namespace OauthNode

mutual
/-- JSON-like values, modelling the JavaScript values handled by the
logging service.  Objects are association lists of key/value pairs,
represented by the companion type `JObject` (mutually inductive so that
structural recursion over object graphs is available). -/
inductive JValue : Type where
  | null : JValue
  | bool (b : Bool) : JValue
  | num (n : Int) : JValue
  | str (s : String) : JValue
  | obj (kvs : JObject) : JValue

/-- Association list of object entries for `JValue.obj`. -/
inductive JObject : Type where
  | nil : JObject
  | cons (k : String) (v : JValue) (rest : JObject) : JObject
end

/-- First-match key lookup in an object, modelling JavaScript property
access `o[k]` (an absent key reads as `undefined`, i.e. `none`). -/
def JObject.lookup (k : String) : JObject → Option JValue
  | .nil => none
  | .cons k' v rest => if k' = k then some v else JObject.lookup k rest

/-- Whether an object has a property named `k`. -/
def JObject.hasKey (k : String) : JObject → Bool
  | .nil => false
  | .cons k' _ rest => k' = k || JObject.hasKey k rest

/-- Concatenation of two objects (used to assemble object literals with
optional fields). -/
def JObject.append : JObject → JObject → JObject
  | .nil, o => o
  | .cons k v rest, o => .cons k v (JObject.append rest o)

/-- Removal of every property named `k` (used to model a later property in
an object literal overwriting an earlier spread-in one). -/
def JObject.removeKey (k : String) : JObject → JObject
  | .nil => .nil
  | .cons k' v rest =>
      if k' = k then JObject.removeKey k rest
      else .cons k' v (JObject.removeKey k rest)

/-- Path lookup into a value: follow the given keys through nested
objects. -/
def getPath : JValue → List String → Option JValue
  | v, [] => some v
  | .obj kvs, k :: rest =>
      match kvs.lookup k with
      | some v => getPath v rest
      | none => none
  | _, _ :: _ => none

/-- JavaScript truthiness of a value (`if (v)`): `undefined`, `null`,
`false`, `0`, and the empty string are falsy; every object is truthy. -/
def truthy : JValue → Bool
  | .null => false
  | .bool b => b
  | .num n => n != 0
  | .str s => s != ""
  | .obj _ => true

/-- Escaping of one character inside a JSON string literal (quote and
backslash; control-character escapes are not modelled, no claim depends
on them). -/
def jsonEscapeChar (c : Char) : String :=
  if c = '\"' then "\\\"" else if c = '\\' then "\\\\" else String.singleton c

/-- Escaping of a string for inclusion in a JSON string literal. -/
def jsonEscape (s : String) : String :=
  String.join (s.data.map jsonEscapeChar)

mutual
/-- Model of `JSON.stringify`, as used by `truncateBody` to measure and preview a
logged body. -/
def jsonStringify : JValue → String
  | .null => "null"
  | .bool b => cond b "true" "false"
  | .num n => toString n
  | .str s => "\"" ++ jsonEscape s ++ "\""
  | .obj kvs => "\x7b" ++ jsonStringifyEntries kvs ++ "\x7d"

/-- Comma-separated serialization of an object's entries. -/
def jsonStringifyEntries : JObject → String
  | .nil => ""
  | .cons k v .nil => "\"" ++ jsonEscape k ++ "\":" ++ jsonStringify v
  | .cons k v (.cons k' v' rest) =>
      "\"" ++ jsonEscape k ++ "\":" ++ jsonStringify v ++ ","
        ++ jsonStringifyEntries (.cons k' v' rest)
end

/-- Logger configuration (`LoggerConfig` interface), restricted to the
fields the logging service reads. -/
structure LoggerConfig where
  level : String
  prettyPrint : Bool
  logDir : Option String
  console : Bool
  timestampFormat : String
  correlationId : Bool
  redactedFields : List String
  captureStackTrace : Bool
  includeMetadata : Bool

/-- Request logging configuration (`RequestLoggingConfig` interface). -/
structure RequestLoggingConfig where
  logRequestBody : Bool
  logResponseBody : Bool
  maxBodyLength : Nat
  includedHeaders : List String
  excludePaths : List String
  logQueryParams : Bool
  logRouteParams : Bool
  logTiming : Bool

/-- Source `loadLoggerConfig`: the hard-coded logger configuration, parametrised
by the values read from the config service (`logging.level`,
`environment`, `logging.filepath`). -/
def loadLoggerConfig (level : String) (environment : String)
    (filepath : Option String) : LoggerConfig where
  level := level
  prettyPrint := environment == "development"
  logDir := filepath
  console := true
  timestampFormat := "YYYY-MM-DD HH:mm:ss"
  correlationId := true
  redactedFields := ["password", "token", "secret", "authorization"]
  captureStackTrace := true
  includeMetadata := true

/-- Source `loadRequestLoggingConfig`: the hard-coded request logging
configuration. -/
def loadRequestLoggingConfig : RequestLoggingConfig where
  logRequestBody := true
  logResponseBody := true
  maxBodyLength := 10000
  includedHeaders := ["user-agent", "host", "referer"]
  excludePaths := ["/health", "/metrics"]
  logQueryParams := true
  logRouteParams := true
  logTiming := true

namespace LoggingService

mutual
/-- Source `redactSensitiveData(obj, fields, depth)`: replace the value of every
key whose lowercased name is in `fields` with the string `[REDACTED]`,
recursing into object-valued entries with `depth + 1`; a non-object
input, or a call with `depth > 10`, returns the input unchanged.  The
in-place mutation of the source is modelled as a pure function returning
the mutated value (the JavaScript recursion into a `null` property is a
no-op and is modelled by not recursing). -/
def redactSensitiveData (obj : JValue) (fields : List String)
    (depth : Nat) : JValue :=
  match obj with
  | .obj kvs => if depth > 10 then .obj kvs
                else .obj (redactEntries kvs fields depth)
  | v => v
termination_by structural obj

/-- The `for (const key in obj)` loop body of `redactSensitiveData`,
applied to each entry of an object being processed at depth `depth`. -/
def redactEntries (kvs : JObject) (fields : List String)
    (depth : Nat) : JObject :=
  match kvs with
  | .nil => .nil
  | .cons k v rest =>
      if fields.contains k.toLower then
        .cons k (.str "[REDACTED]") (redactEntries rest fields depth)
      else
        match v with
        | .obj _ =>
            .cons k (redactSensitiveData v fields (depth + 1))
              (redactEntries rest fields depth)
        | v' => .cons k v' (redactEntries rest fields depth)
termination_by structural kvs
end

/-- Source `truncateBody(body)`: serialize the body; if the serialization fits in
`maxBodyLength` characters return the body unchanged, otherwise return
`{_truncated: true, preview: <first maxBodyLength chars> + "..."}`. -/
def truncateBody (maxBodyLength : Nat) (body : JValue) : JValue :=
  let stringified := jsonStringify body
  if stringified.length ≤ maxBodyLength then body
  else .obj (.cons "_truncated" (.bool true)
    (.cons "preview" (.str (stringified.take maxBodyLength ++ "..."))
      .nil))

/-- Host/process snapshot read by `createLogEntry` and the wall-clock
timestamp and timing measurement, passed explicitly since they are
environment effects in the source. -/
structure SysEnv where
  now : String
  hostname : String
  pid : Nat
  heapUsed : Nat
  heapTotal : Nat
  hrtimeMs : Nat

/-- The `context` block of a `LogEntry`. -/
structure LogContext where
  hostname : String
  pid : Nat
  heapUsed : Nat
  heapTotal : Nat
  deriving DecidableEq

/-- The structured `LogEntry` record assembled by `createLogEntry`.  The
loosely typed optional slots hold whatever `JValue` the metadata bag
supplied; `none` models an `undefined`/absent field. -/
structure LogEntry where
  timestamp : String
  level : String
  message : String
  correlationId : Option JValue
  service : Option JValue
  error : Option JValue
  request : Option JValue
  response : Option JValue
  user : Option JValue
  metadata : Option JValue
  context : Option LogContext

/-- Optional-chaining property read `meta?.k`: `undefined` when the bag is
absent, `null`, or not an object. -/
def metaGet (meta : Option JValue) (k : String) : Option JValue :=
  match meta with
  | some (.obj kvs) => kvs.lookup k
  | _ => none

/-- Source `createLogEntry(level, message, meta)`: assemble a `LogEntry`, copying
each optional slot from the metadata bag via optional chaining and
attaching the host/process `context` block exactly when
`includeMetadata` is enabled. -/
def createLogEntry (cfg : LoggerConfig) (env : SysEnv) (level : String)
    (message : String) (meta : Option JValue) : LogEntry where
  timestamp := env.now
  level := level
  message := message
  correlationId := metaGet meta "correlationId"
  service := metaGet meta "service"
  error := metaGet meta "error"
  request := metaGet meta "request"
  response := metaGet meta "response"
  user := metaGet meta "user"
  metadata := metaGet meta "metadata"
  context :=
    if cfg.includeMetadata then
      some ⟨env.hostname, env.pid, env.heapUsed, env.heapTotal⟩
    else none

/-- Source `info(message, meta)`: the log entry handed to the winston logger by
the `info` facade method. -/
def info (cfg : LoggerConfig) (env : SysEnv) (message : String)
    (meta : Option JValue) : LogEntry :=
  createLogEntry cfg env "info" message meta

/-- Source `debug(message, meta)`: the log entry handed to the winston logger by
the `debug` facade method. -/
def debug (cfg : LoggerConfig) (env : SysEnv) (message : String)
    (meta : Option JValue) : LogEntry :=
  createLogEntry cfg env "debug" message meta

/-- Source `warn(message, meta)`: the log entry handed to the winston logger by
the `warn` facade method. -/
def warn (cfg : LoggerConfig) (env : SysEnv) (message : String)
    (meta : Option JValue) : LogEntry :=
  createLogEntry cfg env "warn" message meta

/-- A JavaScript `Error` value as seen by the `error` facade method:
`name`, `message` and `stack` are the standard non-enumerable error
properties; `extras` are the error's own enumerable properties (for
example `code` or `details`), which the source spreads into the error
block with `...error`. -/
structure JsError where
  name : String
  message : String
  stack : String
  extras : JObject

/-- The error block built inline by `error(message, error, meta)`:
`{name: error.name, message: error.message, stack: captureStackTrace ?
error.stack : undefined, ...error}`.  A property set to `undefined` is
modelled as absent; the spread's overwriting of `name`/`message`/`stack`
does not arise when the extras avoid those keys (the hypothesis used by
the theorems, true of standard `Error` objects). -/
def errorBlock (captureStackTrace : Bool) (e : JsError) : JObject :=
  .cons "name" (.str e.name)
    (.cons "message" (.str e.message)
      (JObject.append
        (if captureStackTrace then .cons "stack" (.str e.stack) .nil
         else .nil)
        e.extras))

/-- The entries spread out of the metadata bag by `{...meta, ...}`: the
bag's own entries when it is an object, nothing otherwise. -/
def metaEntries (meta : Option JValue) : JObject :=
  match meta with
  | some (.obj kvs) => kvs
  | _ => .nil

/-- Source `error(message, error, meta)`: build an `error`-level entry from the
bag `{...meta, error: error ? <error block> : undefined}` (the `error`
property written after the spread overwrites any `error` from the bag,
modelled by removing the bag's `error` key before appending). -/
def error (cfg : LoggerConfig) (env : SysEnv) (message : String)
    (err : Option JsError) (meta : Option JValue) : LogEntry :=
  createLogEntry cfg env "error" message
    (some (.obj (JObject.append
      (JObject.removeKey "error" (metaEntries meta))
      (match err with
       | some e => .cons "error" (.obj (errorBlock cfg.captureStackTrace e)) .nil
       | none => .nil))))

/-- An inbound HTTP request as read by `logRequest`: method, URL, path,
header map (Node lowercases incoming header names), and the possibly
absent `body`, `params` and `query` properties. -/
structure Request where
  method : String
  url : String
  path : String
  headers : List (String × String)
  body : Option JValue
  params : Option JValue
  query : Option JValue

/-- An outgoing HTTP response as read by `logResponse`: status code, the
full header map returned by `res.getHeaders()`, and the response body
captured on the `res.locals.bodyContent` side channel. -/
structure Response where
  statusCode : Nat
  headers : List (String × String)
  bodyContent : Option JValue

/-- The `includedHeaders.forEach` loop of `logRequest`: copy each
configured header into the view when the request carries it with a
truthy (non-empty) value. -/
def buildHeaders (included : List String)
    (headers : List (String × String)) : JObject :=
  match included with
  | [] => .nil
  | h :: rest =>
      match headers.lookup h with
      | some v =>
          if v = "" then buildHeaders rest headers
          else .cons h (.str v) (buildHeaders rest headers)
      | none => buildHeaders rest headers

/-- An object entry for an optional value; absent when the value is
`undefined`. -/
def optEntry (k : String) (v : Option JValue) : JObject :=
  match v with
  | some v' => .cons k v' .nil
  | none => .nil

/-- An optional property gated by JavaScript truthiness: kept only when
present and truthy. -/
def truthyOpt (v : Option JValue) : Option JValue :=
  match v with
  | some v' => if truthy v' then some v' else none
  | none => none

/-- The `requestLog` view object assembled by `logRequest`: method, URL,
the filtered headers, and — each only when its toggle is enabled and the
request value is truthy — the truncated body, the route params and the
query params. -/
def buildRequestView (reqCfg : RequestLoggingConfig) (req : Request) :
    JValue :=
  .obj (.cons "method" (.str req.method)
    (.cons "url" (.str req.url)
      (.cons "headers" (.obj (buildHeaders reqCfg.includedHeaders req.headers))
        (JObject.append
          (optEntry "body"
            (if reqCfg.logRequestBody then
              (truthyOpt req.body).map (truncateBody reqCfg.maxBodyLength)
             else none))
          (JObject.append
            (optEntry "params"
              (if reqCfg.logRouteParams then truthyOpt req.params else none))
            (optEntry "query"
              (if reqCfg.logQueryParams then truthyOpt req.query else none)))))))

/-- Source `logRequest(req, correlationId)`: nothing at all when the request path
is listed in `excludePaths`; otherwise exactly the one `info` entry
"Incoming request" carrying the request view. -/
def logRequest (reqCfg : RequestLoggingConfig) (cfg : LoggerConfig)
    (env : SysEnv) (req : Request) (correlationId : Option String) :
    List LogEntry :=
  if reqCfg.excludePaths.contains req.path then []
  else
    [info cfg env "Incoming request"
      (some (.obj (.cons "request" (buildRequestView reqCfg req)
        (optEntry "correlationId" (correlationId.map .str)))))]

/-- A header map as a JSON object (the value `res.getHeaders()` takes in
the view). -/
def headersToJObject (headers : List (String × String)) : JObject :=
  match headers with
  | [] => .nil
  | (k, v) :: rest => .cons k (.str v) (headersToJObject rest)

/-- The `responseLog` view object assembled by `logResponse`: status code,
all response headers unfiltered, optional timing (when enabled and a
start marker was supplied; the measured milliseconds come from the
environment), and the optionally truncated captured body. -/
def buildResponseView (reqCfg : RequestLoggingConfig) (env : SysEnv)
    (res : Response) (startTime : Option (Nat × Nat)) : JValue :=
  .obj (.cons "statusCode" (.num res.statusCode)
    (.cons "headers" (.obj (headersToJObject res.headers))
      (JObject.append
        (optEntry "body"
          (if reqCfg.logResponseBody then
            (truthyOpt res.bodyContent).map (truncateBody reqCfg.maxBodyLength)
           else none))
        (optEntry "timing"
          (if reqCfg.logTiming then
            startTime.map (fun _ => .num env.hrtimeMs)
           else none)))))

/-- Source `logResponse(res, startTime, correlationId)`: always exactly the one
`info` entry "Outgoing response" carrying the response view — there is
no path-exclusion check. -/
def logResponse (reqCfg : RequestLoggingConfig) (cfg : LoggerConfig)
    (env : SysEnv) (res : Response) (startTime : Option (Nat × Nat))
    (correlationId : Option String) : List LogEntry :=
  [info cfg env "Outgoing response"
    (some (.obj (.cons "response" (buildResponseView reqCfg env res startTime)
      (optEntry "correlationId" (correlationId.map .str)))))]

/-- A delivery destination configured by `initializeLogger`: the console
transport, the `error.log` file transport (created with level
`error`), and the `combined.log` file transport. -/
inductive Sink where
  | console : Sink
  | errorFile : Sink
  | combinedFile : Sink
  deriving DecidableEq

/-- The npm level priorities used by winston (lower number = more severe);
a logger or transport with level `l` processes an entry of level `l'`
exactly when `levelPriority l' ≤ levelPriority l`. -/
def levelPriority (level : String) : Nat :=
  if level = "error" then 0
  else if level = "warn" then 1
  else if level = "info" then 2
  else if level = "http" then 3
  else if level = "verbose" then 4
  else if level = "debug" then 5
  else 6

/-- The sinks that receive an entry from the winston logger built by
`initializeLogger`: the logger drops entries below the configured
minimum level; surviving entries reach the console transport when
`console` is enabled and, when a log directory is configured, the
`combined.log` transport and — only at `error` severity — the
`error.log` transport (whose level is `error`). -/
def deliveredSinks (cfg : LoggerConfig) (entry : LogEntry) : List Sink :=
  if levelPriority entry.level ≤ levelPriority cfg.level then
    (if cfg.console then [Sink.console] else [])
      ++ (match cfg.logDir with
          | some _ =>
              (if levelPriority entry.level ≤ levelPriority "error" then
                [Sink.errorFile]
               else []) ++ [Sink.combinedFile]
          | none => [])
  else []

/-- Whether a metadata bag is an object (`false` for an absent, `null`, or
primitive bag). -/
def isObjBag : Option JValue → Bool
  | some (.obj _) => true
  | _ => false

/-- A fixed sample environment used to instantiate theorems on concrete
inputs. -/
def sampleEnv : SysEnv :=
  ⟨"2024-01-01T00:00:00.000Z", "host-1", 42, 1000, 2000, 5⟩

/-- A sample request whose `host` header is present but empty. -/
def emptyHostReq : Request :=
  ⟨"GET", "/status", "/status", [("host", "")], none, none, none⟩

end LoggingService

end OauthNode

namespace OauthNode

open LoggingService

theorem string_take_append_dots_length (s : String) (n : Nat)
    (h : n ≤ s.length) : (s.take n ++ "...").length = n + 3 := by
  have h3 : ("..." : String).length = 3 := rfl
  have ht : (s.take n).length = n := by
    have hlen : s.data.length = s.length := String.length_data s
    rw [String.take_eq]
    show (s.data.take n).length = n
    rw [List.length_take]
    omega
  rw [String.length_append, ht, h3]

/-- Claim C8: the entry built by `createLogEntry` carries a `context`
block with the hostname, pid and heap snapshot taken at build time
exactly when `includeMetadata` is enabled, and no `context` block when
it is disabled. -/
theorem createLogEntry_context (cfg : LoggerConfig) (env : SysEnv)
    (level message : String) (meta : Option JValue) :
    (createLogEntry cfg env level message meta).context =
      if cfg.includeMetadata then
        some ⟨env.hostname, env.pid, env.heapUsed, env.heapTotal⟩
      else none := rfl

/-- Claim C7: building an entry from an absent, `null`, or non-object
metadata bag is total (the model is a total function) and simply omits
every optional slot read from the bag. -/
theorem createLogEntry_malformed_meta (cfg : LoggerConfig) (env : SysEnv)
    (level message : String) (meta : Option JValue)
    (h : isObjBag meta = false) :
    (createLogEntry cfg env level message meta).correlationId = none ∧
    (createLogEntry cfg env level message meta).service = none ∧
    (createLogEntry cfg env level message meta).error = none ∧
    (createLogEntry cfg env level message meta).request = none ∧
    (createLogEntry cfg env level message meta).response = none ∧
    (createLogEntry cfg env level message meta).user = none ∧
    (createLogEntry cfg env level message meta).metadata = none := by
  have hg : ∀ k, metaGet meta k = none := by
    intro k
    match meta with
    | none => rfl
    | some .null => rfl
    | some (.bool b) => rfl
    | some (.num n) => rfl
    | some (.str s) => rfl
    | some (.obj kvs) => simp [isObjBag] at h
  exact ⟨hg _, hg _, hg _, hg _, hg _, hg _, hg _⟩

theorem createLogEntry_malformed_meta_witness :
    (createLogEntry (loadLoggerConfig "info" "development" none) sampleEnv
      "info" "hello" (some (.num 3))).correlationId = none ∧
    (createLogEntry (loadLoggerConfig "info" "development" none) sampleEnv
      "info" "hello" (some (.num 3))).service = none ∧
    (createLogEntry (loadLoggerConfig "info" "development" none) sampleEnv
      "info" "hello" (some (.num 3))).error = none ∧
    (createLogEntry (loadLoggerConfig "info" "development" none) sampleEnv
      "info" "hello" (some (.num 3))).request = none ∧
    (createLogEntry (loadLoggerConfig "info" "development" none) sampleEnv
      "info" "hello" (some (.num 3))).response = none ∧
    (createLogEntry (loadLoggerConfig "info" "development" none) sampleEnv
      "info" "hello" (some (.num 3))).user = none ∧
    (createLogEntry (loadLoggerConfig "info" "development" none) sampleEnv
      "info" "hello" (some (.num 3))).metadata = none :=
  createLogEntry_malformed_meta _ _ _ _ _ rfl

/-- Claim C2: when the serialized body fits within `maxBodyLength`,
`truncateBody` is the identity; when it does not, the result is
`{_truncated: true, preview: <first maxBodyLength chars> + "..."}` and
the preview is exactly `maxBodyLength + 3` characters long. -/
theorem truncateBody_spec (maxBodyLength : Nat) (body : JValue) :
    ((jsonStringify body).length ≤ maxBodyLength →
      truncateBody maxBodyLength body = body) ∧
    (maxBodyLength < (jsonStringify body).length →
      truncateBody maxBodyLength body =
        .obj (.cons "_truncated" (.bool true)
          (.cons "preview"
            (.str ((jsonStringify body).take maxBodyLength ++ "..."))
            .nil)) ∧
      ((jsonStringify body).take maxBodyLength ++ "...").length =
        maxBodyLength + 3) := by
  constructor
  · intro h
    simp [truncateBody, h]
  · intro h
    refine ⟨?_, ?_⟩
    · simp [truncateBody, Nat.not_le.mpr h]
    · exact string_take_append_dots_length _ _ (Nat.le_of_lt h)

theorem truncateBody_spec_witness :
    truncateBody 10 (.str "aaaaaaaaaaaaaaaaaaaa") =
      .obj (.cons "_truncated" (.bool true)
        (.cons "preview" (.str "\"aaaaaaaaa...") .nil)) ∧
    (truncateBody 10 (.str "aaaaaaaaaaaaaaaaaaaa") =
      .obj (.cons "_truncated" (.bool true)
        (.cons "preview"
          (.str ((jsonStringify (.str "aaaaaaaaaaaaaaaaaaaa")).take 10 ++ "..."))
          .nil)) ∧
     ((jsonStringify (.str "aaaaaaaaaaaaaaaaaaaa")).take 10 ++ "...").length =
       10 + 3) := by
  have h := (truncateBody_spec 10 (.str "aaaaaaaaaaaaaaaaaaaa")).2 (by decide)
  refine ⟨?_, h⟩
  rw [h.1]
  rfl

end OauthNode

namespace OauthNode

open LoggingService

/-- Claim C6: `logResponse` ignores the excluded-path configuration
entirely (changing `excludePaths` cannot change its output), always
emits exactly one entry at `info` level with message "Outgoing
response", and its response view carries every response header,
unfiltered. -/
theorem logResponse_spec (reqCfg : RequestLoggingConfig)
    (cfg : LoggerConfig) (env : SysEnv) (res : Response)
    (startTime : Option (Nat × Nat)) (correlationId : Option String)
    (otherPaths : List String) :
    logResponse { reqCfg with excludePaths := otherPaths } cfg env res
        startTime correlationId =
      logResponse reqCfg cfg env res startTime correlationId ∧
    (logResponse reqCfg cfg env res startTime correlationId).map
        (fun e => (e.level, e.message)) =
      [("info", "Outgoing response")] ∧
    (logResponse reqCfg cfg env res startTime correlationId).map
        (fun e => e.response) =
      [some (buildResponseView reqCfg env res startTime)] ∧
    getPath (buildResponseView reqCfg env res startTime) ["headers"] =
      some (.obj (headersToJObject res.headers)) := by
  refine ⟨rfl, rfl, ?_, ?_⟩
  · simp [logResponse, info, createLogEntry, metaGet, JObject.lookup]
  · simp [buildResponseView, getPath, JObject.lookup]

/-- Claim C3: a request whose path is an exact member of `excludePaths`
produces no log entry at all, and any other request produces exactly one
entry, at `info` level with message "Incoming request". -/
theorem logRequest_exclusion (reqCfg : RequestLoggingConfig)
    (cfg : LoggerConfig) (env : SysEnv) (req : Request)
    (correlationId : Option String) :
    (reqCfg.excludePaths.contains req.path = true →
      logRequest reqCfg cfg env req correlationId = []) ∧
    (reqCfg.excludePaths.contains req.path = false →
      (logRequest reqCfg cfg env req correlationId).map
          (fun e => (e.level, e.message)) =
        [("info", "Incoming request")]) := by
  constructor
  · intro h
    have h' : req.path ∈ reqCfg.excludePaths := by simpa using h
    simp [logRequest, h']
  · intro h
    have h' : req.path ∉ reqCfg.excludePaths := by simpa using h
    simp [logRequest, h', info, createLogEntry]

theorem logRequest_exclusion_witness :
    logRequest loadRequestLoggingConfig
        (loadLoggerConfig "info" "development" none) sampleEnv
        ⟨"GET", "/health", "/health", [], none, none, none⟩ none = [] ∧
    (logRequest loadRequestLoggingConfig
        (loadLoggerConfig "info" "development" none) sampleEnv
        ⟨"GET", "/healthz", "/healthz", [], none, none, none⟩ none).map
        (fun e => (e.level, e.message)) =
      [("info", "Incoming request")] :=
  ⟨(logRequest_exclusion _ _ _ _ _).1 rfl,
   (logRequest_exclusion _ _ _ _ _).2 rfl⟩

/-- Claim C5: the winston logger built by `initializeLogger` delivers an
entry whose level is below the configured minimum to no sink; an entry
at or above the minimum reaches the console sink exactly when the
console transport is enabled; and an `error`-level entry additionally
reaches the error-only file sink whenever a log directory is
configured. -/
theorem deliveredSinks_spec (cfg : LoggerConfig) (entry : LogEntry) :
    (levelPriority cfg.level < levelPriority entry.level →
      deliveredSinks cfg entry = []) ∧
    (levelPriority entry.level ≤ levelPriority cfg.level →
      (Sink.console ∈ deliveredSinks cfg entry ↔ cfg.console = true)) ∧
    (entry.level = "error" → cfg.logDir.isSome = true →
      Sink.errorFile ∈ deliveredSinks cfg entry) := by
  refine ⟨?_, ?_, ?_⟩
  · intro h
    simp [deliveredSinks, Nat.not_le.mpr h]
  · intro h
    cases hc : cfg.console <;>
      cases hd : cfg.logDir <;>
        simp [deliveredSinks, h, hc, hd]
  · intro he hd
    have h0 : levelPriority entry.level = 0 := by rw [he]; rfl
    cases hdir : cfg.logDir with
    | none => rw [hdir] at hd; simp at hd
    | some dir =>
        cases hc : cfg.console <;>
          simp [deliveredSinks, h0, hc, hdir, levelPriority, he,
            Nat.zero_le]

theorem deliveredSinks_spec_witness :
    Sink.errorFile ∈
      deliveredSinks (loadLoggerConfig "info" "production" (some "/var/log"))
        (createLogEntry (loadLoggerConfig "info" "production" (some "/var/log"))
          sampleEnv "error" "boom" none) :=
  (deliveredSinks_spec _ _).2.2 rfl rfl

theorem JObject.lookup_append_removeKey :
    ∀ (o : JObject) (k : String) (v : JValue),
      (JObject.append (JObject.removeKey k o) (.cons k v .nil)).lookup k =
        some v
  | .nil, k, v => by
      simp [JObject.removeKey, JObject.append, JObject.lookup]
  | .cons k' v' rest, k, v => by
      by_cases hk : k' = k
      · simpa [JObject.removeKey, hk]
          using JObject.lookup_append_removeKey rest k v
      · simpa [JObject.removeKey, hk, JObject.append, JObject.lookup]
          using JObject.lookup_append_removeKey rest k v

theorem JObject.hasKey_append :
    ∀ (a b : JObject) (k : String),
      (JObject.append a b).hasKey k = (a.hasKey k || b.hasKey k)
  | .nil, b, k => by simp [JObject.append, JObject.hasKey]
  | .cons k' v' rest, b, k => by
      simp [JObject.append, JObject.hasKey,
        JObject.hasKey_append rest b k, Bool.or_assoc]

/-- Claim C4: `error(message, err, meta)` with a supplied error attaches
an error block whose `name` and `message` come from the error, and the
block has a `stack` property exactly when `captureStackTrace` is
enabled (the hypotheses say the error's own enumerable properties do
not collide with the `name`/`message`/`stack` slots, which is true of
standard `Error` objects). -/
theorem error_block_spec (cfg : LoggerConfig) (env : SysEnv)
    (message : String) (e : JsError) (meta : Option JValue)
    (hname : e.extras.hasKey "name" = false)
    (hmsg : e.extras.hasKey "message" = false)
    (hstack : e.extras.hasKey "stack" = false) :
    (error cfg env message (some e) meta).error =
      some (.obj (errorBlock cfg.captureStackTrace e)) ∧
    (errorBlock cfg.captureStackTrace e).lookup "name" =
      some (.str e.name) ∧
    (errorBlock cfg.captureStackTrace e).lookup "message" =
      some (.str e.message) ∧
    (errorBlock cfg.captureStackTrace e).hasKey "stack" =
      cfg.captureStackTrace := by
  refine ⟨?_, rfl, rfl, ?_⟩
  · exact JObject.lookup_append_removeKey (metaEntries meta) "error" _
  · cases hc : cfg.captureStackTrace <;>
      simp [errorBlock, JObject.hasKey, JObject.hasKey_append, hc, hstack]

theorem error_block_spec_witness :
    (error (loadLoggerConfig "info" "development" none) sampleEnv
        "request failed"
        (some ⟨"TypeError", "x is not a function", "TypeError: boom", .nil⟩)
        none).error =
      some (.obj (errorBlock true
        ⟨"TypeError", "x is not a function", "TypeError: boom", .nil⟩)) ∧
    (errorBlock true
        ⟨"TypeError", "x is not a function", "TypeError: boom", .nil⟩).lookup
        "name" = some (.str "TypeError") ∧
    (errorBlock true
        ⟨"TypeError", "x is not a function", "TypeError: boom", .nil⟩).lookup
        "message" = some (.str "x is not a function") ∧
    (errorBlock true
        ⟨"TypeError", "x is not a function", "TypeError: boom", .nil⟩).hasKey
        "stack" = true :=
  error_block_spec _ _ _ _ _ rfl rfl rfl

theorem redactSensitiveData_id_of_gt (v : JValue) (fields : List String)
    (d : Nat) (hd : 10 < d) : redactSensitiveData v fields d = v := by
  cases v <;> simp [redactSensitiveData, hd]

theorem JObject.inductionOn {motive : JObject → Prop}
    (hnil : motive .nil)
    (hcons : ∀ k v rest, motive rest → motive (.cons k v rest)) :
    ∀ (o : JObject), motive o
  | .nil => hnil
  | .cons k v rest =>
      hcons k v rest (JObject.inductionOn hnil hcons rest)

theorem lookup_redactEntries (fields : List String) (d : Nat)
    (kvs : JObject) :
    ∀ (k : String),
      (redactEntries kvs fields d).lookup k =
        (kvs.lookup k).map (fun v =>
          if fields.contains k.toLower then JValue.str "[REDACTED]"
          else redactSensitiveData v fields (d + 1)) := by
  induction kvs using JObject.inductionOn with
  | hnil => intro k; simp [redactEntries, JObject.lookup]
  | hcons k' v rest ih =>
      intro k
      by_cases hk : k' = k
      · by_cases hm : k.toLower ∈ fields
        · simp [redactEntries, JObject.lookup, hk, hm]
        · cases v <;>
            simp [redactEntries, JObject.lookup, hk, hm,
              redactSensitiveData]
      · by_cases hm : k'.toLower ∈ fields
        · simp [redactEntries, JObject.lookup, hm, hk, ih k]
        · cases v <;>
            simp [redactEntries, JObject.lookup, hm, hk, ih k]

theorem getPath_append_single (p : List String) (v : JValue)
    (k : String) :
    getPath v (p ++ [k]) =
      (getPath v p).bind (fun u =>
        match u with
        | .obj kvs => kvs.lookup k
        | _ => none) := by
  induction p generalizing v with
  | nil =>
      cases v with
      | obj kvs =>
          cases hlk : kvs.lookup k with
          | some u => simp [getPath, hlk]
          | none => simp [getPath, hlk]
      | null => simp [getPath]
      | bool b => simp [getPath]
      | num n => simp [getPath]
      | str s => simp [getPath]
  | cons k' rest ih =>
      cases v with
      | obj kvs =>
          cases hlk : kvs.lookup k' with
          | some u => simp [getPath, hlk, ih u]
          | none => simp [getPath, hlk]
      | null => simp [getPath]
      | bool b => simp [getPath]
      | num n => simp [getPath]
      | str s => simp [getPath]

theorem getPath_redact (fields : List String) (p : List String) :
    ∀ (v : JValue) (d : Nat) (w : JValue),
      (∀ k' ∈ p, fields.contains k'.toLower = false) →
      getPath v p = some w →
      getPath (redactSensitiveData v fields d) p =
        some (redactSensitiveData w fields (d + p.length)) := by
  induction p with
  | nil =>
      intro v d w _ hget
      simp only [getPath, Option.some.injEq] at hget
      subst hget
      simp [getPath]
  | cons k rest ih =>
      intro v d w hanc hget
      cases v with
      | obj kvs =>
          cases hlk : kvs.lookup k with
          | none => simp [getPath, hlk] at hget
          | some u =>
              have hget' : getPath u rest = some w := by
                simpa [getPath, hlk] using hget
              by_cases hd : 10 < d
              · rw [redactSensitiveData_id_of_gt _ _ _ hd,
                  redactSensitiveData_id_of_gt w fields _
                    (Nat.lt_of_lt_of_le hd (Nat.le_add_right d _))]
                exact hget
              · have hk : k.toLower ∉ fields := by
                  simpa using hanc k (List.mem_cons_self k rest)
                have ihu := ih u (d + 1) w
                  (fun k' hk' => hanc k' (List.mem_cons_of_mem _ hk')) hget'
                have hred : redactSensitiveData (.obj kvs) fields d =
                    .obj (redactEntries kvs fields d) := by
                  simp [redactSensitiveData, hd]
                rw [hred]
                have harr : d + 1 + rest.length = d + (rest.length + 1) := by
                  omega
                rw [harr] at ihu
                simpa [getPath, lookup_redactEntries fields d kvs k, hlk, hk]
                  using ihu
      | null => simp [getPath] at hget
      | bool b => simp [getPath] at hget
      | num n => simp [getPath] at hget
      | str s => simp [getPath] at hget

theorem contains_toLower_of_match (fields : List String) (k : String)
    (hlow : ∀ f ∈ fields, f.toLower = f)
    (hmatch : ∃ f ∈ fields, k.toLower = f.toLower) :
    fields.contains k.toLower = true := by
  obtain ⟨f, hf, he⟩ := hmatch
  have hkf : k.toLower = f := by rw [he, hlow f hf]
  have hmem : k.toLower ∈ fields := by rw [hkf]; exact hf
  simpa [List.contains_iff_exists_mem_beq] using hmem

theorem contains_toLower_eq_false (fields : List String) (k : String)
    (hlow : ∀ f ∈ fields, f.toLower = f)
    (hno : ∀ f ∈ fields, k.toLower ≠ f.toLower) :
    fields.contains k.toLower = false := by
  rw [Bool.eq_false_iff]
  intro hc
  have hmem : k.toLower ∈ fields := by
    simpa [List.contains_iff_exists_mem_beq] using hc
  exact hno k.toLower hmem (hlow k.toLower hmem).symm

theorem toLower_eq_mk (s : String) :
    s.toLower = String.mk (s.data.map Char.toLower) :=
  String.map_eq Char.toLower s

/-- Claim C1: with the configured (all-lowercase) redacted-field names,
every key that matches a redacted field case-insensitively at nesting
depth at most 10 (top-level keys are at depth 0 and none of the
enclosing keys is itself redacted) has its value replaced by
`[REDACTED]`, while every value reachable only through more than 10
levels of nesting is left unchanged, even under a matching key. -/
theorem redactSensitiveData_depth_spec (fields : List String)
    (v : JValue) (p : List String) (k : String) (w : JValue)
    (hlow : ∀ f ∈ fields, f.toLower = f)
    (hanc : ∀ k' ∈ p, ∀ f ∈ fields, k'.toLower ≠ f.toLower)
    (hget : getPath v (p ++ [k]) = some w) :
    (p.length ≤ 10 → (∃ f ∈ fields, k.toLower = f.toLower) →
      getPath (redactSensitiveData v fields 0) (p ++ [k]) =
        some (.str "[REDACTED]")) ∧
    (10 < p.length →
      getPath (redactSensitiveData v fields 0) (p ++ [k]) = some w) := by
  have hanc' : ∀ k' ∈ p, fields.contains k'.toLower = false :=
    fun k' hk' => contains_toLower_eq_false fields k' hlow (hanc k' hk')
  rw [getPath_append_single] at hget
  cases hu : getPath v p with
  | none => rw [hu] at hget; simp at hget
  | some u =>
      rw [hu] at hget
      cases u with
      | obj kvs =>
          have hlkw : kvs.lookup k = some w := by simpa using hget
          have hmain := getPath_redact fields p v 0 (.obj kvs) hanc' hu
          constructor
          · intro hlen hmatch
            have hc := contains_toLower_of_match fields k hlow hmatch
            have hc' : k.toLower ∈ fields := by
              simpa [List.contains_iff_exists_mem_beq] using hc
            rw [getPath_append_single, hmain]
            have hred : redactSensitiveData (.obj kvs) fields
                (0 + p.length) = .obj (redactEntries kvs fields
                  (0 + p.length)) := by
              simp [redactSensitiveData]
              omega
            rw [hred]
            simp [lookup_redactEntries, hlkw, hc']
          · intro hlen
            rw [getPath_append_single, hmain]
            rw [redactSensitiveData_id_of_gt _ _ _
              (by omega : 10 < 0 + p.length)]
            simpa using hlkw
      | null => simp at hget
      | bool b => simp at hget
      | num n => simp at hget
      | str s => simp at hget

theorem redactSensitiveData_depth_spec_witness :
    getPath
      (redactSensitiveData
        (.obj (.cons "Password" (.str "hunter2") .nil)) ["password"] 0)
      ["Password"] = some (.str "[REDACTED]") :=
  (redactSensitiveData_depth_spec ["password"]
    (.obj (.cons "Password" (.str "hunter2") .nil)) [] "Password"
    (.str "hunter2")
    (by
      intro f hf
      simp only [List.mem_singleton] at hf
      subst hf
      rw [toLower_eq_mk]
      decide)
    (by intro k' hk'; simp at hk')
    (by simp [getPath, JObject.lookup])).1 (by decide)
    ⟨"password", by simp, by rw [toLower_eq_mk, toLower_eq_mk]; decide⟩

/-- Claim C10: at depth at most 10, a key matching a redacted field has
its whole value replaced by the `[REDACTED]` string even when that value
is itself an object — nothing inside the replaced value survives — while
a non-matching key with an object value has the redaction recursed into
it with the depth increased by one. -/
theorem redactSensitiveData_wholesale (fields : List String)
    (v : JValue) (p : List String) (k k' : String) (o o' : JObject)
    (hanc : ∀ a ∈ p, fields.contains a.toLower = false)
    (hmatch : fields.contains k.toLower = true)
    (hnomatch : fields.contains k'.toLower = false)
    (hlen : p.length ≤ 10)
    (hget : getPath v (p ++ [k]) = some (.obj o))
    (hget' : getPath v (p ++ [k']) = some (.obj o')) :
    getPath (redactSensitiveData v fields 0) (p ++ [k]) =
      some (.str "[REDACTED]") ∧
    (∀ k2, getPath (redactSensitiveData v fields 0) ((p ++ [k]) ++ [k2]) =
      none) ∧
    getPath (redactSensitiveData v fields 0) (p ++ [k']) =
      some (redactSensitiveData (.obj o') fields (p.length + 1)) := by
  rw [getPath_append_single] at hget hget'
  cases hu : getPath v p with
  | none => rw [hu] at hget; simp at hget
  | some u =>
      rw [hu] at hget hget'
      cases u with
      | obj kvs =>
          have hlk : kvs.lookup k = some (.obj o) := by simpa using hget
          have hlk' : kvs.lookup k' = some (.obj o') := by
            simpa using hget'
          have hmain := getPath_redact fields p v 0 (.obj kvs) hanc hu
          have hm : k.toLower ∈ fields := by
            simpa [List.contains_iff_exists_mem_beq] using hmatch
          have hm' : k'.toLower ∉ fields := by
            rw [Bool.eq_false_iff] at hnomatch
            intro hc
            exact hnomatch
              (by simpa [List.contains_iff_exists_mem_beq] using hc)
          have hred : redactSensitiveData (.obj kvs) fields
              (0 + p.length) = .obj (redactEntries kvs fields
                (0 + p.length)) := by
            simp [redactSensitiveData]
            omega
          have h1 : getPath (redactSensitiveData v fields 0) (p ++ [k]) =
              some (.str "[REDACTED]") := by
            rw [getPath_append_single, hmain, hred]
            simp [lookup_redactEntries, hlk, hm]
          refine ⟨h1, ?_, ?_⟩
          · intro k2
            rw [getPath_append_single, h1]
            rfl
          · rw [getPath_append_single, hmain, hred]
            have harr : 0 + p.length + 1 = p.length + 1 := by omega
            simp [lookup_redactEntries, hlk', hm', harr]
      | null => simp at hget
      | bool b => simp at hget
      | num n => simp at hget
      | str s => simp at hget

theorem redactSensitiveData_wholesale_witness :
    getPath
      (redactSensitiveData
        (.obj (.cons "token" (.obj (.cons "inner" (.str "x") .nil))
          (.cons "meta" (.obj (.cons "token" (.str "y") .nil)) .nil)))
        ["token"] 0) ["token"] = some (.str "[REDACTED]") ∧
    getPath
      (redactSensitiveData
        (.obj (.cons "token" (.obj (.cons "inner" (.str "x") .nil))
          (.cons "meta" (.obj (.cons "token" (.str "y") .nil)) .nil)))
        ["token"] 0) ["token", "inner"] = none ∧
    getPath
      (redactSensitiveData
        (.obj (.cons "token" (.obj (.cons "inner" (.str "x") .nil))
          (.cons "meta" (.obj (.cons "token" (.str "y") .nil)) .nil)))
        ["token"] 0) ["meta"] =
      some (redactSensitiveData
        (.obj (.cons "token" (.str "y") .nil)) ["token"] 1) := by
  have h := redactSensitiveData_wholesale ["token"]
    (.obj (.cons "token" (.obj (.cons "inner" (.str "x") .nil))
      (.cons "meta" (.obj (.cons "token" (.str "y") .nil)) .nil)))
    [] "token" "meta" (.cons "inner" (.str "x") .nil)
    (.cons "token" (.str "y") .nil)
    (by intro a ha; simp at ha)
    (by rw [toLower_eq_mk]; decide)
    (by rw [toLower_eq_mk]; decide)
    (by decide)
    (by simp [getPath, JObject.lookup])
    (by simp [getPath, JObject.lookup])
  exact ⟨h.1, h.2.1 "inner", h.2.2⟩

/-- Claim C9 counterexample: the `host` header is in the configured
`includedHeaders` list and is present on the request (with an empty
value), the request path is not excluded, yet the captured request
view's headers map is empty — the code's truthiness check
`if (headerValue)` drops a present-but-empty header, so the view does
not contain "exactly those header names that appear in the configured
list and are present on the request". -/
theorem logRequest_headers_counterexample :
    "host" ∈ loadRequestLoggingConfig.includedHeaders ∧
    emptyHostReq.headers.lookup "host" = some "" ∧
    loadRequestLoggingConfig.excludePaths.contains emptyHostReq.path =
      false ∧
    (logRequest loadRequestLoggingConfig
        (loadLoggerConfig "info" "development" none) sampleEnv
        emptyHostReq none).map (fun e => e.request) =
      [some (buildRequestView loadRequestLoggingConfig emptyHostReq)] ∧
    getPath (buildRequestView loadRequestLoggingConfig emptyHostReq)
      ["headers"] = some (.obj .nil) := by
  refine ⟨by simp [loadRequestLoggingConfig], rfl, rfl, ?_, ?_⟩
  · simp [logRequest, loadRequestLoggingConfig, emptyHostReq, info,
      createLogEntry, metaGet, JObject.lookup]
  · simp [buildRequestView, loadRequestLoggingConfig, emptyHostReq,
      buildHeaders, getPath, JObject.lookup, List.lookup]

theorem buildHeaders_lookup (hs : List (String × String)) :
    ∀ (included : List String) (h : String),
      (buildHeaders included hs).lookup h =
        (if h ∈ included then
          (hs.lookup h).bind (fun v =>
            if v = "" then none else some (.str v))
         else none) := by
  intro included
  induction included with
  | nil => intro h; simp [buildHeaders, JObject.lookup]
  | cons h' rest ih =>
      intro h
      cases hl : hs.lookup h' with
      | some v =>
          by_cases hv : v = ""
          · subst hv
            rw [show buildHeaders (h' :: rest) hs = buildHeaders rest hs
              from by simp [buildHeaders, hl], ih h]
            by_cases hh : h' = h
            · subst hh
              simp [hl]
            · simp [hh, Ne.symm hh]
          · rw [show buildHeaders (h' :: rest) hs =
                .cons h' (.str v) (buildHeaders rest hs)
              from by simp [buildHeaders, hl, hv]]
            by_cases hh : h' = h
            · subst hh
              simp [JObject.lookup, hl, hv]
            · simp [JObject.lookup, hh, Ne.symm hh, ih h]
      | none =>
          rw [show buildHeaders (h' :: rest) hs = buildHeaders rest hs
            from by simp [buildHeaders, hl], ih h]
          by_cases hh : h' = h
          · subst hh
            simp [hl]
          · simp [hh, Ne.symm hh]

/-- Claim C9, amended: the headers map of the captured request view
contains exactly those header names that appear in `includedHeaders`
and are present on the request with a non-empty value; a configured
header that is missing, or present with an empty value, is silently
omitted, and no header outside the list ever appears. -/
theorem requestView_headers_spec (reqCfg : RequestLoggingConfig)
    (req : Request) (h : String) :
    getPath (buildRequestView reqCfg req) ["headers"] =
      some (.obj (buildHeaders reqCfg.includedHeaders req.headers)) ∧
    (buildHeaders reqCfg.includedHeaders req.headers).lookup h =
      (if h ∈ reqCfg.includedHeaders then
        (req.headers.lookup h).bind (fun v =>
          if v = "" then none else some (.str v))
       else none) := by
  refine ⟨?_, buildHeaders_lookup req.headers reqCfg.includedHeaders h⟩
  simp [buildRequestView, getPath, JObject.lookup]

end OauthNode
